import Mathlib

/-!
Verification of the brand-mention correlation pipeline (src/Example.py).

The file shallowly embeds the pieces of the program the specification talks
about: the mention labeler (`label_mentions`), the Wikipedia page resolver
(`has_wikipedia_page` with its alias table, disambiguation ranking and search
fallback), and the chi-square association tester (`chi_square_on_haswiki`).
The external Wikipedia service is modelled as an oracle (`WikiService`), and
scipy's chi-square survival function as a function parameter `sf`.
-/

namespace MentionPipeline

/-! ### String helpers (Python `in`, `str.lower`, `str.strip`) -/

/-- Python substring test `needle in hay`, over character lists. -/
def listContains (needle : List Char) : List Char → Bool
  | [] => needle.isEmpty
  | c :: t => needle.isPrefixOf (c :: t) || listContains needle t

/-- Python `needle in hay` on strings. -/
def strContains (hay needle : String) : Bool :=
  listContains needle.data hay.data

/-- Python `str.lower()` (ASCII case folding). -/
def pyLower (s : String) : String :=
  ⟨s.data.map Char.toLower⟩

/-- Python `str.strip()`: drop leading and trailing whitespace. -/
def pyStrip (s : String) : String :=
  ⟨((s.data.dropWhile Char.isWhitespace).reverse.dropWhile Char.isWhitespace).reverse⟩

/-! ### Mention labeler (`label_mentions` in src/Example.py)

The pandas code runs row by row; the embedding gives the per-record value of
the `Mentioned` column.  `response = none` models a NaN cell, filled by
`fillna("")`. -/

/-- `label_mentions`, per record: `Mentioned = 1` if the lowercased brand is a
substring of the lowercased response, else `0`; forced to `0` when the
response is empty after stripping whitespace (`np.where(ResponseEmpty, 0, ...)`). -/
def label_mentions (brand : String) (response : Option String) : Nat :=
  let r : String := response.getD ""
  let responseEmpty : Bool := pyStrip r == ""
  let mentioned : Nat := if strContains (pyLower r) (pyLower brand) then 1 else 0
  if responseEmpty then 0 else mentioned

/-! ### Page resolver (`has_wikipedia_page` in src/Example.py)

The wikipedia client is an oracle: `page` is `wikipedia.page(t, auto_suggest=False)`
(success with the fetched page's title, `DisambiguationError` with its options,
`PageError`, or any other exception), `search` is `wikipedia.search(brand)`
(`none` models the call raising). -/

inductive FetchOutcome where
  | success (title : String)
  | ambiguous (options : List String)
  | notFound
  | failure
deriving DecidableEq

structure WikiService where
  page : String → FetchOutcome
  search : String → Option (List String)

/-- The `WIKI_ALIASES` dict from src/Example.py, as an association list in
its literal order. -/
def WIKI_ALIASES : List (String × List String) :=
  [("HP", ["HP Inc.", "Hewlett-Packard"]),
   ("Apple", ["Apple Inc."]),
   ("Dell", ["Dell (company)", "Dell Inc."]),
   ("Lenovo", ["Lenovo"]),
   ("Asus", ["Asus"]),
   ("Jabra", ["Jabra", "Jabra (company)"]),
   ("Samsung", ["Samsung Electronics", "Samsung"])]

/-- `WIKI_ALIASES.get(brand, [brand])`. -/
def aliasLookup (brand : String) : List String :=
  match WIKI_ALIASES.lookup brand with
  | some l => l
  | none => [brand]

/-- Worker of `dedupFirst`: keep each element whose value has not been seen
yet, tracking seen values in `seen`. -/
def dedupFirstAux {α : Type} [DecidableEq α] (seen : List α) : List α → List α
  | [] => []
  | a :: l => if a ∈ seen then dedupFirstAux seen l else a :: dedupFirstAux (a :: seen) l

/-- Order-preserving first-occurrence deduplication, i.e. Python
`list(dict.fromkeys(...))`. -/
def dedupFirst {α : Type} [DecidableEq α] (l : List α) : List α :=
  dedupFirstAux [] l

/-- `titles_to_try = list(dict.fromkeys(WIKI_ALIASES.get(brand, [brand]) + [brand]))`. -/
def titles_to_try (brand : String) : List String :=
  dedupFirst (aliasLookup brand ++ [brand])

/-- A direct fetch inside one of the inner rescue loops: only a success
returns a title, every exception is swallowed (`except Exception: continue`). -/
def tryDirect (svc : WikiService) (t : String) : Option String :=
  match svc.page t with
  | .success pt => some pt
  | _ => none

/-- The ranking key of the disambiguation rescue:
`lambda x: (brand.lower() not in x.lower(), len(x))`. -/
def candKey (brand x : String) : Nat × Nat :=
  (if strContains (pyLower x) (pyLower brand) then 0 else 1, x.length)

/-- Ascending lexicographic comparison of `candKey`s (Python tuple order,
`False < True`). -/
def candLe (brand : String) (x y : String) : Bool :=
  decide ((candKey brand x).1 < (candKey brand y).1 ∨
          ((candKey brand x).1 = (candKey brand y).1 ∧
            (candKey brand x).2 ≤ (candKey brand y).2))

/-- `sorted(e.options, key=lambda x: (brand.lower() not in x.lower(), len(x)))`
(a stable sort, like Python's `sorted`). -/
def sortCandidates (brand : String) (opts : List String) : List String :=
  opts.mergeSort (candLe brand)

/-- First successful direct fetch along a candidate list (the shape of both
the disambiguation rescue loop and the search-fallback loop). -/
def firstHit (svc : WikiService) : List String → Option String
  | [] => none
  | c :: cs =>
    match tryDirect svc c with
    | some pt => some pt
    | none => firstHit svc cs

/-- The main candidate loop of `has_wikipedia_page`: direct fetch per title;
on `DisambiguationError` try the first 3 ranked options; on `PageError` or any
other exception continue with the next title. -/
def tryTitles (svc : WikiService) (brand : String) : List String → Option String
  | [] => none
  | t :: rest =>
    match svc.page t with
    | .success pt => some pt
    | .ambiguous opts =>
      match firstHit svc ((sortCandidates brand opts).take 3) with
      | some pt => some pt
      | none => tryTitles svc brand rest
    | .notFound => tryTitles svc brand rest
    | .failure => tryTitles svc brand rest

/-- The search fallback: `wikipedia.search(brand)`, then direct fetches of the
first 5 hits; a raising search is swallowed (`except Exception: pass`). -/
def searchFallback (svc : WikiService) (brand : String) : Option String :=
  match svc.search brand with
  | some hits => firstHit svc (hits.take 5)
  | none => none

/-- `has_wikipedia_page(brand)`: returns `(1, title)` on the first resolvable
candidate or search hit, `(0, None)` when nothing resolves. -/
def has_wikipedia_page (svc : WikiService) (brand : String) : Nat × Option String :=
  match tryTitles svc brand (titles_to_try brand) with
  | some t => (1, some t)
  | none =>
    match searchFallback svc brand with
    | some t => (1, some t)
    | none => (0, none)

/-! ### Concrete test oracles (used to instantiate the resolver theorems) -/

/-- An oracle whose brand title is ambiguous and whose option `"B1"` resolves. -/
def svcAmb : WikiService where
  page := fun q =>
    if q = "B" then FetchOutcome.ambiguous ["Beta Two", "B1"]
    else if q = "B1" then FetchOutcome.success "B1 page"
    else FetchOutcome.notFound
  search := fun _ => none

/-- An oracle where every direct fetch fails but the text search answers. -/
def svcSearch : WikiService where
  page := fun _ => FetchOutcome.notFound
  search := fun q => if q = "B" then some ["Hit1"] else none

/-- An oracle where every lookup fails. -/
def svcDown : WikiService where
  page := fun _ => FetchOutcome.notFound
  search := fun _ => none

/-! ### Association tester (`chi_square_on_haswiki` in src/Example.py)

A record is its `(HasWiki, Mentioned)` pair; `rs` is the dataframe column
pair.  `pd.crosstab` yields the table with row labels the distinct `HasWiki`
values, column labels the distinct `Mentioned` values, and cell `(r, c)` the
number of records equal to `(r, c)`.  `chi2_contingency` is embedded with its
default Yates continuity correction (applied exactly when `dof = 1`), its
guard that every expected frequency is nonzero (a zero raises `ValueError`,
modelled as `none`), and its `dof = 0` shortcut (`chi2 = 0`, `p = 1`).  The
chi-square survival function used for the p-value is the parameter `sf`. -/

def rowVals (rs : List (Nat × Nat)) : Finset Nat := (rs.map Prod.fst).toFinset

def colVals (rs : List (Nat × Nat)) : Finset Nat := (rs.map Prod.snd).toFinset

/-- Cell `(r, c)` of the crosstab. -/
def cellCount (rs : List (Nat × Nat)) (r c : Nat) : Nat :=
  rs.countP (fun p => p.1 == r && p.2 == c)

/-- Row margin of the crosstab (count of records with `HasWiki = r`). -/
def rowCount (rs : List (Nat × Nat)) (r : Nat) : Nat :=
  rs.countP (fun p => p.1 == r)

/-- Column margin of the crosstab (count of records with `Mentioned = c`). -/
def colCount (rs : List (Nat × Nat)) (c : Nat) : Nat :=
  rs.countP (fun p => p.2 == c)

/-- `tab.size`: number of cells of the crosstab. -/
def tabSize (rs : List (Nat × Nat)) : Nat :=
  (rowVals rs).card * (colVals rs).card

/-- `tab.values.sum()`: total of all cells of the crosstab. -/
def tabTotal (rs : List (Nat × Nat)) : Nat :=
  Finset.sum (rowVals rs) (fun r => Finset.sum (colVals rs) (fun c => cellCount rs r c))

/-- Expected frequency of cell `(r, c)`: row margin times column margin over
the grand total. -/
def expectedCell (rs : List (Nat × Nat)) (r c : Nat) : ℚ :=
  ((rowCount rs r : ℚ) * (colCount rs c : ℚ)) / (rs.length : ℚ)

/-- Degrees of freedom of the crosstab: `(rows - 1) * (cols - 1)`. -/
def dofTab (rs : List (Nat × Nat)) : Nat :=
  ((rowVals rs).card - 1) * ((colVals rs).card - 1)

/-- Yates continuity adjustment of one observed cell, as scipy does it:
move `o` toward `e` by `min(0.5, |e - o|)`. -/
def yatesAdjust (o e : ℚ) : ℚ :=
  o + min (1 / 2 : ℚ) |e - o| * (if o < e then 1 else if e < o then -1 else 0)

/-- One cell's contribution to the Pearson chi-square statistic,
`(observed - expected)^2 / expected`, with the Yates adjustment of the
observed count exactly when `dof = 1` (scipy's default `correction=True`). -/
def chi2cell (rs : List (Nat × Nat)) (r c : Nat) : ℚ :=
  ((if dofTab rs = 1 then
      yatesAdjust (cellCount rs r c : ℚ) (expectedCell rs r c)
    else (cellCount rs r c : ℚ)) - expectedCell rs r c) ^ 2 / expectedCell rs r c

/-- The Pearson chi-square statistic of the crosstab: sum of the cell
contributions. -/
def chi2stat (rs : List (Nat × Nat)) : ℚ :=
  Finset.sum (rowVals rs) (fun r => Finset.sum (colVals rs) (fun c => chi2cell rs r c))

/-- scipy's guard: `ValueError` when some expected frequency is zero. -/
def expectedHasZero (rs : List (Nat × Nat)) : Prop :=
  ∃ r ∈ rowVals rs, ∃ c ∈ colVals rs, expectedCell rs r c = 0

instance (rs : List (Nat × Nat)) : Decidable (expectedHasZero rs) := by
  unfold expectedHasZero; infer_instance

/-- `scipy.stats.chi2_contingency(tab)` on the crosstab of `rs`:
`none` models the `ValueError` on a zero expected frequency; otherwise the
triple `(chi2, p, dof)` with the `dof = 0` shortcut. -/
def chi2_contingency (sf : ℚ → Nat → ℝ) (rs : List (Nat × Nat)) :
    Option (ℚ × ℝ × Nat) :=
  if expectedHasZero rs then none
  else if dofTab rs = 0 then some (0, 1, 0)
  else some (chi2stat rs, sf (chi2stat rs) (dofTab rs), dofTab rs)

/-- The association tester's report: chi-square, p-value, degrees of freedom
and phi effect size. -/
structure ChiSquareReport where
  chi2 : ℚ
  p : ℝ
  dof : Nat
  phi : ℝ

/-- `chi_square_on_haswiki`: the degenerate guard (`tab.size == 0 or
tab.values.sum() == 0`) reports `(0, 1, 0, 0)` without calling
`chi2_contingency`; otherwise it calls it and sets
`phi = sqrt(chi2 / n)` with `n = len(df)` (the `n = 0` branch of the source's
conditional is unreachable past the guard). -/
noncomputable def chi_square_on_haswiki (sf : ℚ → Nat → ℝ) (rs : List (Nat × Nat)) :
    Option ChiSquareReport :=
  if tabSize rs = 0 ∨ tabTotal rs = 0 then some ⟨0, 1, 0, 0⟩
  else
    match chi2_contingency sf rs with
    | none => none
    | some (c2, p, d) =>
      let n : Nat := rs.length
      let phi : ℝ := if 0 < n then Real.sqrt ((c2 : ℝ) / (n : ℝ)) else 0
      some ⟨c2, p, d, phi⟩

end MentionPipeline

namespace MentionPipeline

/-! ### Theorems -/

theorem label_mentions_eq (brand : String) (response : Option String) :
    label_mentions brand response =
      if pyStrip (response.getD "") == "" then 0
      else if strContains (pyLower (response.getD "")) (pyLower brand) then 1 else 0 := rfl

/-- C1: a record whose response is empty or whitespace-only (i.e. empty after
stripping) is labeled `Mentioned = 0`, whatever the brand and whatever the
substring test would say. -/
theorem label_mentions_blank_forces_zero (brand : String) (response : Option String)
    (h : pyStrip (response.getD "") = "") :
    label_mentions brand response = 0 := by
  rw [label_mentions_eq, h]
  simp

theorem label_mentions_blank_forces_zero_witness :
    pyStrip ((some "   " : Option String).getD "") = "" ∧
    label_mentions "Apple" (some "   ") = 0 :=
  ⟨by decide, label_mentions_blank_forces_zero "Apple" (some "   ") (by decide)⟩

/-- C2 counterexample: the response `" "` is non-empty and the lowercased
brand `""` is a substring of its lowercased text, yet the labeler still
produces `Mentioned = 0` (the whitespace-only override fires), refuting the
claim as stated for merely non-empty responses. -/
theorem label_mentions_claim2_cex :
    ((some " " : Option String).getD "" ≠ "") ∧
    strContains (pyLower ((some " " : Option String).getD "")) (pyLower "") = true ∧
    label_mentions "" (some " ") ≠ 1 := by
  refine ⟨by decide, by decide, by decide⟩

/-- C2 (amended): for every record whose response is non-empty after
stripping whitespace, the labeler sets `Mentioned = 1` exactly when the
lowercased brand is a substring of the lowercased response, and `0`
otherwise. -/
theorem label_mentions_substring_rule (brand : String) (response : Option String)
    (h : pyStrip (response.getD "") ≠ "") :
    (strContains (pyLower (response.getD "")) (pyLower brand) = true →
      label_mentions brand response = 1) ∧
    (strContains (pyLower (response.getD "")) (pyLower brand) = false →
      label_mentions brand response = 0) := by
  rw [label_mentions_eq]
  constructor <;> intro hs <;> simp [hs, h]

theorem label_mentions_substring_rule_witness :
    pyStrip ((some "Yes, Apple is great" : Option String).getD "") ≠ "" ∧
    strContains (pyLower ((some "Yes, Apple is great" : Option String).getD ""))
      (pyLower "Apple") = true ∧
    label_mentions "Apple" (some "Yes, Apple is great") = 1 :=
  ⟨by decide, by decide,
    (label_mentions_substring_rule "Apple" (some "Yes, Apple is great")
      (by decide)).1 (by decide)⟩

/-! ### Lemmas about `dedupFirst` -/

theorem mem_dedupFirstAux {α : Type} [DecidableEq α] (a : α) :
    ∀ (l seen : List α), a ∈ dedupFirstAux seen l ↔ a ∈ l ∧ a ∉ seen := by
  intro l
  induction l with
  | nil => intro seen; simp [dedupFirstAux]
  | cons b l ih =>
    intro seen
    by_cases hb : b ∈ seen
    · simp only [dedupFirstAux, if_pos hb, ih, List.mem_cons]
      constructor
      · rintro ⟨h1, h2⟩; exact ⟨Or.inr h1, h2⟩
      · rintro ⟨h1 | h1, h2⟩
        · exact absurd (h1 ▸ hb) h2
        · exact ⟨h1, h2⟩
    · simp only [dedupFirstAux, if_neg hb, List.mem_cons, ih]
      constructor
      · rintro (rfl | ⟨h1, h2⟩)
        · exact ⟨Or.inl rfl, hb⟩
        · exact ⟨Or.inr h1, fun hs => h2 (Or.inr hs)⟩
      · rintro ⟨h1 | h1, h2⟩
        · exact Or.inl h1
        · by_cases hab : a = b
          · exact Or.inl hab
          · exact Or.inr ⟨h1, fun hx => hx.elim hab h2⟩

theorem mem_dedupFirst {α : Type} [DecidableEq α] (a : α) (l : List α) :
    a ∈ dedupFirst l ↔ a ∈ l := by
  simp [dedupFirst, mem_dedupFirstAux]

theorem nodup_dedupFirstAux {α : Type} [DecidableEq α] :
    ∀ (l seen : List α), (dedupFirstAux seen l).Nodup := by
  intro l
  induction l with
  | nil => intro seen; simp [dedupFirstAux]
  | cons b l ih =>
    intro seen
    by_cases hb : b ∈ seen
    · simpa [dedupFirstAux, if_pos hb] using ih seen
    · have hmem : b ∉ dedupFirstAux (b :: seen) l := fun hmem =>
        ((mem_dedupFirstAux b l (b :: seen)).mp hmem).2 (List.mem_cons_self b seen)
      simpa [dedupFirstAux, if_neg hb] using List.nodup_cons.mpr ⟨hmem, ih (b :: seen)⟩

theorem nodup_dedupFirst {α : Type} [DecidableEq α] (l : List α) :
    (dedupFirst l).Nodup :=
  nodup_dedupFirstAux l []

theorem dedupFirstAux_append_singleton {α : Type} [DecidableEq α] (b : α) :
    ∀ (l seen : List α), b ∉ l → b ∉ seen →
      dedupFirstAux seen (l ++ [b]) = dedupFirstAux seen l ++ [b] := by
  intro l
  induction l with
  | nil => intro seen _ hs; simp [dedupFirstAux, hs]
  | cons a l ih =>
    intro seen hl hs
    have hba : b ≠ a := fun h => hl (h ▸ List.mem_cons_self a l)
    have hbl : b ∉ l := fun h => hl (List.mem_cons_of_mem a h)
    by_cases ha : a ∈ seen
    · simp only [List.cons_append, dedupFirstAux, if_pos ha]
      exact ih seen hbl hs
    · simp only [List.cons_append, dedupFirstAux, if_neg ha, List.append_eq]
      rw [ih (a :: seen) hbl (by simp [List.mem_cons, hba, hs])]

theorem dedupFirst_append_singleton {α : Type} [DecidableEq α] (b : α) (l : List α)
    (hl : b ∉ l) : dedupFirst (l ++ [b]) = dedupFirst l ++ [b] :=
  dedupFirstAux_append_singleton b l [] hl (by simp)

/-! ### Page resolver: candidate list (claim C5) -/

/-- C5 counterexample: for the brand `"Jabra"` the configured aliases are
`["Jabra", "Jabra (company)"]`, the candidate list is
`["Jabra", "Jabra (company)"]`, and the alias `"Jabra (company)"` is NOT
attempted before the raw brand name `"Jabra"` — the raw brand name comes
first. -/
theorem titles_to_try_claim5_cex :
    WIKI_ALIASES.lookup "Jabra" = some ["Jabra", "Jabra (company)"] ∧
    titles_to_try "Jabra" = ["Jabra", "Jabra (company)"] ∧
    ¬ ((titles_to_try "Jabra").indexOf "Jabra (company)" <
        (titles_to_try "Jabra").indexOf "Jabra") := by
  refine ⟨by decide, by decide, by decide⟩

/-- C5 (amended): for every brand whose configured alias list does not itself
contain the raw brand name, the candidate list is the first-occurrence
deduplication of the aliases followed by the raw brand name; it is
duplicate-free, and every configured alias occurs strictly before the raw
brand name. -/
theorem titles_to_try_alias_order (brand : String) (al : List String)
    (h : WIKI_ALIASES.lookup brand = some al) (hb : brand ∉ al) :
    titles_to_try brand = dedupFirst al ++ [brand] ∧
    (titles_to_try brand).Nodup ∧
    ∀ a ∈ al, (titles_to_try brand).indexOf a < (titles_to_try brand).indexOf brand := by
  have halias : aliasLookup brand = al := by rw [aliasLookup, h]
  have heq : titles_to_try brand = dedupFirst al ++ [brand] := by
    rw [titles_to_try, halias, dedupFirst_append_singleton brand al hb]
  refine ⟨heq, heq ▸ ?_, ?_⟩
  · refine List.Nodup.append (nodup_dedupFirst al) (List.nodup_singleton brand) ?_
    intro x hx hx1
    rw [List.mem_singleton] at hx1
    exact hb (hx1 ▸ (mem_dedupFirst x al).mp hx)
  · intro a ha
    have had : a ∈ dedupFirst al := (mem_dedupFirst a al).mpr ha
    have hbd : brand ∉ dedupFirst al := fun hmem => hb ((mem_dedupFirst brand al).mp hmem)
    rw [heq, List.indexOf_append_of_mem had, List.indexOf_append_of_not_mem hbd,
      List.indexOf_cons_self]
    exact Nat.lt_of_lt_of_le (List.indexOf_lt_length.mpr had) (Nat.le_add_right _ _)

theorem titles_to_try_alias_order_witness :
    WIKI_ALIASES.lookup "Apple" = some ["Apple Inc."] ∧
    "Apple" ∉ (["Apple Inc."] : List String) ∧
    (titles_to_try "Apple" = dedupFirst ["Apple Inc."] ++ ["Apple"] ∧
      (titles_to_try "Apple").Nodup ∧
      ∀ a ∈ (["Apple Inc."] : List String),
        (titles_to_try "Apple").indexOf a < (titles_to_try "Apple").indexOf "Apple") :=
  ⟨by decide, by decide,
    titles_to_try_alias_order "Apple" ["Apple Inc."] (by decide) (by decide)⟩

/-! ### Page resolver: behaviour lemmas -/

theorem tryDirect_eq_some (svc : WikiService) (q pt : String) :
    tryDirect svc q = some pt ↔ svc.page q = FetchOutcome.success pt := by
  rw [tryDirect]
  cases h : svc.page q <;> simp

theorem candLe_trans (brand : String) : ∀ (x y z : String),
    candLe brand x y → candLe brand y z → candLe brand x z := by
  intro x y z
  simp only [candLe, decide_eq_true_eq]
  omega

theorem candLe_total (brand : String) : ∀ (x y : String),
    candLe brand x y || candLe brand y x := by
  intro x y
  simp only [candLe, Bool.or_eq_true, decide_eq_true_eq]
  omega

theorem firstHit_success (svc : WikiService) :
    ∀ (l : List String) (pt : String), firstHit svc l = some pt →
      ∃ q ∈ l, svc.page q = FetchOutcome.success pt := by
  intro l
  induction l with
  | nil => intro pt h; simp [firstHit] at h
  | cons c cs ih =>
    intro pt h
    rw [firstHit] at h
    cases hc : tryDirect svc c with
    | some pt2 =>
      simp only [hc] at h
      rw [show pt2 = pt by simpa using h] at hc
      exact ⟨c, List.mem_cons_self c cs, (tryDirect_eq_some svc c pt).mp hc⟩
    | none =>
      simp only [hc] at h
      obtain ⟨q, hq1, hq2⟩ := ih pt h
      exact ⟨q, List.mem_cons_of_mem c hq1, hq2⟩

theorem tryTitles_success (svc : WikiService) (brand : String) :
    ∀ (l : List String) (pt : String), tryTitles svc brand l = some pt →
      ∃ q, svc.page q = FetchOutcome.success pt := by
  intro l
  induction l with
  | nil => intro pt h; simp [tryTitles] at h
  | cons t rest ih =>
    intro pt h
    rw [tryTitles] at h
    cases hp : svc.page t with
    | success t2 =>
      simp only [hp] at h
      rw [show t2 = pt by simpa using h] at hp
      exact ⟨t, hp⟩
    | ambiguous opts =>
      simp only [hp] at h
      cases hf : firstHit svc ((sortCandidates brand opts).take 3) with
      | some pt2 =>
        simp only [hf] at h
        rw [show pt2 = pt by simpa using h] at hf
        obtain ⟨q, _, hq⟩ := firstHit_success svc _ pt hf
        exact ⟨q, hq⟩
      | none =>
        simp only [hf] at h
        exact ih pt h
    | notFound =>
      simp only [hp] at h
      exact ih pt h
    | failure =>
      simp only [hp] at h
      exact ih pt h

theorem searchFallback_success (svc : WikiService) (brand pt : String) :
    searchFallback svc brand = some pt → ∃ q, svc.page q = FetchOutcome.success pt := by
  rw [searchFallback]
  cases hs : svc.search brand with
  | some hits =>
    intro h
    obtain ⟨q, _, hq⟩ := firstHit_success svc (hits.take 5) pt (by simpa using h)
    exact ⟨q, hq⟩
  | none => intro h; simp at h

/-- Shared case analysis of the resolver's result: either nothing resolved
and it reports `(0, none)`, or it reports `(1, some pt)` where `pt` is the
title of a page some direct fetch succeeded on. -/
theorem has_wikipedia_page_cases (svc : WikiService) (brand : String) :
    has_wikipedia_page svc brand = (0, none) ∨
      ∃ pt, has_wikipedia_page svc brand = (1, some pt) ∧
        ∃ q, svc.page q = FetchOutcome.success pt := by
  rw [has_wikipedia_page]
  cases h1 : tryTitles svc brand (titles_to_try brand) with
  | some t => exact Or.inr ⟨t, rfl, tryTitles_success svc brand _ t h1⟩
  | none =>
    cases h2 : searchFallback svc brand with
    | some t => exact Or.inr ⟨t, rfl, searchFallback_success svc brand t h2⟩
    | none => exact Or.inl rfl

/-- C6: when the direct fetch of a candidate is ambiguous, the options are
re-ranked into a permutation sorted ascending by the key
(does-not-contain-brand, length); the first 3 ranked options are attempted in
order and the first success is the resolver's answer, reported as
`(1, title)`. -/
theorem ambiguous_ranked_rescue (svc : WikiService) (brand t : String)
    (rest opts : List String) (h : svc.page t = FetchOutcome.ambiguous opts) :
    (sortCandidates brand opts).Perm opts ∧
    (sortCandidates brand opts).Pairwise (fun x y => candLe brand x y = true) ∧
    (∀ pt, firstHit svc ((sortCandidates brand opts).take 3) = some pt →
        tryTitles svc brand (t :: rest) = some pt) ∧
    (∀ pt, tryTitles svc brand (titles_to_try brand) = some pt →
        has_wikipedia_page svc brand = (1, some pt)) := by
  refine ⟨List.mergeSort_perm opts (candLe brand),
    List.sorted_mergeSort (candLe_trans brand) (candLe_total brand) opts, ?_, ?_⟩
  · intro pt hf
    rw [tryTitles, h]
    simp only [hf]
  · intro pt hpt
    rw [has_wikipedia_page, hpt]

theorem ambiguous_ranked_rescue_witness :
    svcAmb.page "B" = FetchOutcome.ambiguous ["Beta Two", "B1"] ∧
    ((sortCandidates "B" ["Beta Two", "B1"]).Perm ["Beta Two", "B1"] ∧
      (sortCandidates "B" ["Beta Two", "B1"]).Pairwise (fun x y => candLe "B" x y = true) ∧
      (∀ pt, firstHit svcAmb ((sortCandidates "B" ["Beta Two", "B1"]).take 3) = some pt →
          tryTitles svcAmb "B" ("B" :: []) = some pt) ∧
      (∀ pt, tryTitles svcAmb "B" (titles_to_try "B") = some pt →
          has_wikipedia_page svcAmb "B" = (1, some pt))) :=
  ⟨by decide, ambiguous_ranked_rescue svcAmb "B" "B" [] ["Beta Two", "B1"] (by decide)⟩

/-- C7: when every candidate title fails to resolve, the resolver falls back
to a text search on the brand; the first 5 hits are direct-fetched in order,
the first success is reported as `(1, title)`, and when nothing (or the
search itself) succeeds the result is `(0, none)`. -/
theorem search_fallback_behavior (svc : WikiService) (brand : String)
    (h : tryTitles svc brand (titles_to_try brand) = none) :
    (∀ hits, svc.search brand = some hits →
      (∀ pt, firstHit svc (hits.take 5) = some pt →
          has_wikipedia_page svc brand = (1, some pt)) ∧
      (firstHit svc (hits.take 5) = none →
          has_wikipedia_page svc brand = (0, none))) ∧
    (svc.search brand = none → has_wikipedia_page svc brand = (0, none)) := by
  refine ⟨fun hits hs => ⟨fun pt hf => ?_, fun hf => ?_⟩, fun hs => ?_⟩
  · rw [has_wikipedia_page, h, searchFallback, hs]
    simp only [hf]
  · rw [has_wikipedia_page, h, searchFallback, hs]
    simp only [hf]
  · rw [has_wikipedia_page, h, searchFallback, hs]

theorem search_fallback_behavior_witness :
    tryTitles svcSearch "B" (titles_to_try "B") = none ∧
    ((∀ hits, svcSearch.search "B" = some hits →
      (∀ pt, firstHit svcSearch (hits.take 5) = some pt →
          has_wikipedia_page svcSearch "B" = (1, some pt)) ∧
      (firstHit svcSearch (hits.take 5) = none →
          has_wikipedia_page svcSearch "B" = (0, none))) ∧
    (svcSearch.search "B" = none → has_wikipedia_page svcSearch "B" = (0, none))) :=
  ⟨by decide, search_fallback_behavior svcSearch "B" (by decide)⟩

/-- C8: every lookup failure is absorbed: `PageError` and any other exception
advance to the next candidate, an ambiguity whose rescue fails advances to
the next candidate, a raising search yields an empty fallback, and for every
oracle behaviour the resolver returns a plain `(flag, title)` pair. -/
theorem lookup_failures_absorbed (svc : WikiService) (brand : String) :
    (∀ t rest, svc.page t = FetchOutcome.notFound →
        tryTitles svc brand (t :: rest) = tryTitles svc brand rest) ∧
    (∀ t rest, svc.page t = FetchOutcome.failure →
        tryTitles svc brand (t :: rest) = tryTitles svc brand rest) ∧
    (∀ t rest opts, svc.page t = FetchOutcome.ambiguous opts →
        firstHit svc ((sortCandidates brand opts).take 3) = none →
        tryTitles svc brand (t :: rest) = tryTitles svc brand rest) ∧
    (svc.search brand = none → searchFallback svc brand = none) ∧
    (∃ flag title, has_wikipedia_page svc brand = (flag, title) ∧
        (flag = 0 ∨ flag = 1)) := by
  refine ⟨fun t rest hp => ?_, fun t rest hp => ?_, fun t rest opts hp hf => ?_,
    fun hs => ?_, ?_⟩
  · rw [tryTitles, hp]
  · rw [tryTitles, hp]
  · rw [tryTitles, hp]
    simp only [hf]
  · rw [searchFallback, hs]
  · rcases has_wikipedia_page_cases svc brand with h | ⟨pt, h, _⟩
    · exact ⟨0, none, h, Or.inl rfl⟩
    · exact ⟨1, some pt, h, Or.inr rfl⟩

theorem lookup_failures_absorbed_witness :
    svcDown.page "X" = FetchOutcome.notFound ∧
    tryTitles svcDown "B" ("X" :: ["Y"]) = tryTitles svcDown "B" ["Y"] :=
  ⟨by decide, (lookup_failures_absorbed svcDown "B").1 "X" ["Y"] (by decide)⟩

/-- C10: the resolver's result `(flag, title)` always satisfies: the flag is
0 or 1, the title is absent exactly when the flag is 0, and a present title
is the title of a page some direct fetch of the oracle succeeded on. -/
theorem has_wikipedia_page_flag_title (svc : WikiService) (brand : String) :
    ((has_wikipedia_page svc brand).1 = 0 ∨ (has_wikipedia_page svc brand).1 = 1) ∧
    ((has_wikipedia_page svc brand).2 = none ↔ (has_wikipedia_page svc brand).1 = 0) ∧
    (∀ pt, (has_wikipedia_page svc brand).2 = some pt →
      (has_wikipedia_page svc brand).1 = 1 ∧
        ∃ q, svc.page q = FetchOutcome.success pt) := by
  rcases has_wikipedia_page_cases svc brand with h | ⟨pt0, h, q, hq⟩ <;> rw [h]
  · exact ⟨Or.inl rfl, by simp, by simp⟩
  · refine ⟨Or.inr rfl, by simp, ?_⟩
    intro pt hpt
    obtain rfl : pt0 = pt := by simpa using hpt
    exact ⟨rfl, q, hq⟩

theorem has_wikipedia_page_flag_title_witness :
    (has_wikipedia_page svcDown "Q").1 = 0 ∨ (has_wikipedia_page svcDown "Q").1 = 1 :=
  (has_wikipedia_page_flag_title svcDown "Q").1

/-! ### Association tester: lemmas -/

theorem expectedCell_nonneg (rs : List (Nat × Nat)) (r c : Nat) :
    0 ≤ expectedCell rs r c :=
  div_nonneg (mul_nonneg (Nat.cast_nonneg _) (Nat.cast_nonneg _)) (Nat.cast_nonneg _)

theorem chi2cell_nonneg (rs : List (Nat × Nat)) (r c : Nat) :
    0 ≤ chi2cell rs r c :=
  div_nonneg (sq_nonneg _) (expectedCell_nonneg rs r c)

theorem chi2stat_nonneg (rs : List (Nat × Nat)) : 0 ≤ chi2stat rs :=
  Finset.sum_nonneg fun r _ => Finset.sum_nonneg fun c _ => chi2cell_nonneg rs r c

theorem rowCount_pos (rs : List (Nat × Nat)) (r : Nat) (h : r ∈ rowVals rs) :
    0 < rowCount rs r := by
  rw [rowVals, List.mem_toFinset, List.mem_map] at h
  obtain ⟨p, hp, rfl⟩ := h
  exact List.countP_pos_iff.mpr ⟨p, hp, by simp⟩

theorem colCount_pos (rs : List (Nat × Nat)) (c : Nat) (h : c ∈ colVals rs) :
    0 < colCount rs c := by
  rw [colVals, List.mem_toFinset, List.mem_map] at h
  obtain ⟨p, hp, rfl⟩ := h
  exact List.countP_pos_iff.mpr ⟨p, hp, by simp⟩

theorem expectedCell_pos (rs : List (Nat × Nat)) (r c : Nat)
    (hr : r ∈ rowVals rs) (hc : c ∈ colVals rs) (hn : rs ≠ []) :
    0 < expectedCell rs r c := by
  rw [expectedCell]
  apply div_pos
  · exact mul_pos (by exact_mod_cast rowCount_pos rs r hr)
      (by exact_mod_cast colCount_pos rs c hc)
  · exact_mod_cast List.length_pos.mpr hn

/-- On a crosstab built from a nonempty record list no expected frequency is
zero (both margins of every label are positive), so scipy's `ValueError`
guard never fires. -/
theorem expectedHasZero_false (rs : List (Nat × Nat)) (hn : rs ≠ []) :
    ¬ expectedHasZero rs := by
  rintro ⟨r, hr, c, hc, hz⟩
  exact absurd hz (ne_of_gt (expectedCell_pos rs r c hr hc hn))

theorem cellCount_pos_self (rs : List (Nat × Nat)) (p : Nat × Nat) (hp : p ∈ rs) :
    0 < cellCount rs p.1 p.2 :=
  List.countP_pos_iff.mpr ⟨p, hp, by simp⟩

theorem mem_rowVals (rs : List (Nat × Nat)) (p : Nat × Nat) (hp : p ∈ rs) :
    p.1 ∈ rowVals rs := by
  rw [rowVals, List.mem_toFinset, List.mem_map]
  exact ⟨p, hp, rfl⟩

theorem mem_colVals (rs : List (Nat × Nat)) (p : Nat × Nat) (hp : p ∈ rs) :
    p.2 ∈ colVals rs := by
  rw [colVals, List.mem_toFinset, List.mem_map]
  exact ⟨p, hp, rfl⟩

theorem tabTotal_pos (rs : List (Nat × Nat)) (hn : rs ≠ []) : 0 < tabTotal rs := by
  obtain ⟨p, hp⟩ : ∃ p, p ∈ rs := by
    cases rs with
    | nil => exact absurd rfl hn
    | cons q l => exact ⟨q, List.mem_cons_self q l⟩
  have h1 : cellCount rs p.1 p.2 ≤ Finset.sum (colVals rs) (fun c => cellCount rs p.1 c) :=
    Finset.single_le_sum (fun c _ => Nat.zero_le _) (mem_colVals rs p hp)
  have h2 : Finset.sum (colVals rs) (fun c => cellCount rs p.1 c) ≤ tabTotal rs :=
    Finset.single_le_sum (f := fun r => Finset.sum (colVals rs) (fun c => cellCount rs r c))
      (fun r _ => Nat.zero_le _) (mem_rowVals rs p hp)
  exact Nat.lt_of_lt_of_le (Nat.lt_of_lt_of_le (cellCount_pos_self rs p hp) h1) h2

theorem nondegenerate_of_ne_nil (rs : List (Nat × Nat)) (hn : rs ≠ []) :
    ¬ (tabSize rs = 0 ∨ tabTotal rs = 0) := by
  obtain ⟨p, hp⟩ : ∃ p, p ∈ rs := by
    cases rs with
    | nil => exact absurd rfl hn
    | cons q l => exact ⟨q, List.mem_cons_self q l⟩
  rintro (hs | ht)
  · rw [tabSize] at hs
    rcases Nat.mul_eq_zero.mp hs with h0 | h0
    · exact absurd (Finset.card_eq_zero.mp h0 ▸ mem_rowVals rs p hp)
        (Finset.not_mem_empty p.1)
    · exact absurd (Finset.card_eq_zero.mp h0 ▸ mem_colVals rs p hp)
        (Finset.not_mem_empty p.2)
  · exact absurd ht (Nat.pos_iff_ne_zero.mp (tabTotal_pos rs hn))

/-- The association tester always produces a report: the degenerate guard
covers the empty table and past the guard every expected frequency is
positive, so the `chi2_contingency` model never fails. -/
theorem chi_square_isSome (sf : ℚ → Nat → ℝ) (rs : List (Nat × Nat)) :
    ∃ rep, chi_square_on_haswiki sf rs = some rep := by
  by_cases hn : rs = []
  · subst hn
    have hdeg : tabSize ([] : List (Nat × Nat)) = 0 ∨ tabTotal [] = 0 := Or.inl (by decide)
    exact ⟨⟨0, 1, 0, 0⟩, by rw [chi_square_on_haswiki, if_pos hdeg]⟩
  · rw [chi_square_on_haswiki, if_neg (nondegenerate_of_ne_nil rs hn), chi2_contingency,
      if_neg (expectedHasZero_false rs hn)]
    by_cases hd : dofTab rs = 0
    · rw [if_pos hd]; exact ⟨_, rfl⟩
    · rw [if_neg hd]; exact ⟨_, rfl⟩

/-! ### Association tester: claims C3, C4, C9 -/

/-- C3: on a degenerate crosstab (no cells, or all counts zero) the tester
reports chi-square 0, p-value 1, dof 0 and phi 0, short-circuiting before the
`chi2_contingency` computation. -/
theorem chi_square_degenerate_guard (sf : ℚ → Nat → ℝ) (rs : List (Nat × Nat))
    (h : tabSize rs = 0 ∨ tabTotal rs = 0) :
    chi_square_on_haswiki sf rs = some ⟨0, 1, 0, 0⟩ := by
  rw [chi_square_on_haswiki, if_pos h]

theorem chi_square_degenerate_guard_witness :
    (tabSize [] = 0 ∨ tabTotal [] = 0) ∧
    chi_square_on_haswiki (fun _ _ => (0 : ℝ)) [] = some ⟨0, 1, 0, 0⟩ :=
  ⟨Or.inl rfl, chi_square_degenerate_guard (fun _ _ => (0 : ℝ)) [] (Or.inl rfl)⟩

/-- C4: on a non-degenerate crosstab the tester produces a report whose phi
is the square root of chi-square over the sample count, i.e.
`phi^2 * n = chi2` with `n = len(df)` (which equals the table total). -/
theorem chi_square_phi_relation (sf : ℚ → Nat → ℝ) (rs : List (Nat × Nat))
    (h : ¬ (tabSize rs = 0 ∨ tabTotal rs = 0)) :
    ∃ rep, chi_square_on_haswiki sf rs = some rep ∧
      rep.phi ^ 2 * (rs.length : ℝ) = (rep.chi2 : ℝ) := by
  have hn : rs ≠ [] := by rintro rfl; exact h (Or.inl rfl)
  have hlen : 0 < rs.length := List.length_pos.mpr hn
  have hlenR : (0 : ℝ) < (rs.length : ℝ) := by exact_mod_cast hlen
  rw [chi_square_on_haswiki, if_neg h, chi2_contingency,
    if_neg (expectedHasZero_false rs hn)]
  by_cases hd : dofTab rs = 0
  · rw [if_pos hd]
    refine ⟨_, rfl, ?_⟩
    simp [hlen]
  · rw [if_neg hd]
    refine ⟨_, rfl, ?_⟩
    simp only [if_pos hlen]
    have hnum : (0 : ℝ) ≤ (chi2stat rs : ℝ) / (rs.length : ℝ) :=
      div_nonneg (by exact_mod_cast chi2stat_nonneg rs) (le_of_lt hlenR)
    rw [Real.sq_sqrt hnum, div_mul_cancel₀ _ (ne_of_gt hlenR)]

theorem chi_square_phi_relation_witness :
    ¬ (tabSize [((0 : Nat), (0 : Nat))] = 0 ∨ tabTotal [((0 : Nat), (0 : Nat))] = 0) ∧
    ∃ rep, chi_square_on_haswiki (fun _ _ => (0 : ℝ)) [((0 : Nat), (0 : Nat))] = some rep ∧
      rep.phi ^ 2 * (([((0 : Nat), (0 : Nat))] : List (Nat × Nat)).length : ℝ) =
        (rep.chi2 : ℝ) :=
  ⟨by decide, chi_square_phi_relation (fun _ _ => (0 : ℝ)) [(0, 0)] (by decide)⟩

/-- C9: on a 2x2 crosstab with exactly one zero cell (all other cells are
then positive), the tester completes without failure and produces the four
report values. -/
theorem chi_square_single_zero_cell (sf : ℚ → Nat → ℝ) (rs : List (Nat × Nat))
    (_h2r : (rowVals rs).card = 2) (_h2c : (colVals rs).card = 2)
    (_hz : Finset.sum (rowVals rs) (fun r => Finset.sum (colVals rs) (fun c =>
            if cellCount rs r c = 0 then 1 else 0)) = 1) :
    ∃ rep, chi_square_on_haswiki sf rs = some rep :=
  chi_square_isSome sf rs

theorem chi_square_single_zero_cell_witness :
    (rowVals [(0, 0), (0, 1), (1, 0)]).card = 2 ∧
    (colVals [(0, 0), (0, 1), (1, 0)]).card = 2 ∧
    Finset.sum (rowVals [(0, 0), (0, 1), (1, 0)]) (fun r =>
      Finset.sum (colVals [(0, 0), (0, 1), (1, 0)]) (fun c =>
        if cellCount [(0, 0), (0, 1), (1, 0)] r c = 0 then 1 else 0)) = 1 ∧
    ∃ rep, chi_square_on_haswiki (fun _ _ => (0 : ℝ)) [(0, 0), (0, 1), (1, 0)] = some rep :=
  ⟨by decide, by decide, by decide,
    chi_square_single_zero_cell (fun _ _ => (0 : ℝ)) [(0, 0), (0, 1), (1, 0)]
      (by decide) (by decide) (by decide)⟩

end MentionPipeline
